import Mathlib

/-!
Verification of `third_party/maya/lib/usdMaya/util.cpp` (the `PxrUsdMayaUtil`
utilities bridging Maya's scene graph and the USD value system).

The host object models are shallowly embedded as explicit data: Maya plugs,
DAG paths and dependency-graph nodes become inductive types, host queries
become fields of those types, and each function of the file is translated
over that model.  Machine integers in the file are only loop indices and
array lengths, so `Nat`/`Int` are used directly; colour components are
modelled as rationals.  Recursive walks are embedded fuel-indexed (returning
`none` on fuel exhaustion) so that every definition is executable.
-/

namespace UsdMayaUtil

/-! ## Rotation orders (`PxrUsdMayaUtil::getRotOrder`, util.cpp:172-231) -/

/-- Maya's `MTransformationMatrix::RotationOrder` enumeration. -/
inductive RotationOrder where
  | kInvalid | kXYZ | kYZX | kZXY | kXZY | kYXZ | kZYX | kLast
deriving DecidableEq

/-- util.cpp:172-231.  The C++ writes through the three output references
only in the six recognized cases; the embedding returns the (possibly
unchanged) output values together with the returned `Bool`. -/
def getRotOrder (iOrder : RotationOrder) (oXAxis oYAxis oZAxis : Nat) :
    Bool × Nat × Nat × Nat :=
  match iOrder with
  | .kXYZ => (true, 0, 1, 2)
  | .kYZX => (true, 1, 2, 0)
  | .kZXY => (true, 2, 0, 1)
  | .kXZY => (true, 0, 2, 1)
  | .kYXZ => (true, 1, 0, 2)
  | .kZYX => (true, 2, 1, 0)
  | _ => (false, oXAxis, oYAxis, oZAxis)

/-- The sequence of axis indices (X = 0, Y = 1, Z = 2) composing each
recognized rotation order, read off the order's name; `none` for the
unrecognized enumerators. -/
def rotOrderAxes : RotationOrder → Option (List Nat)
  | .kXYZ => some [0, 1, 2]
  | .kYZX => some [1, 2, 0]
  | .kZXY => some [2, 0, 1]
  | .kXZY => some [0, 2, 1]
  | .kYXZ => some [1, 0, 2]
  | .kZYX => some [2, 1, 0]
  | _ => none

/-- Position of axis `a` in an axis sequence. -/
def posIn (l : List Nat) (a : Nat) : Nat := l.findIdx (fun x => x == a)

/-- The claim's reading of the outputs: each axis is assigned its position
in the rotation order (`oXAxis` gets the position of axis X, etc.). -/
def claimedRotOrderWrite (o : RotationOrder) : Option (Nat × Nat × Nat) :=
  (rotOrderAxes o).map (fun l => (posIn l 0, posIn l 1, posIn l 2))

/-! ## DAG paths

One node on a Maya DAG path carries what the file queries of it: its name
(`MDagPath::fullPathName` contributes `"|" + name` per node), whether the
node's function set includes `MFn::kTransform`, and the number of shapes
directly below it (`MDagPath::numberOfShapesDirectlyBelow` for the path
ending at that node).  A path is the root-first list of its nodes; `[]` is
the world root. -/

structure DagNode where
  name : List Char
  isTransform : Bool
  shapesBelow : Nat
deriving DecidableEq

/-- `MDagPath::pop n`: remove `n` levels from the leaf end of a DAG path. -/
def popN (p : List DagNode) (n : Nat) : List DagNode := p.take (p.length - n)

/-- util.cpp:49-83 (`isAncestorDescendentRelationship`). -/
def isAncestorDescendentRelationship (path1 path2 : List DagNode) : Bool :=
  let length1 := path1.length
  let length2 := path2.length
  if length1 = length2 ∧ path1 ≠ path2 then false
  else
    let t := if length1 > length2 then (path2, path1, length1 - length2)
             else (path1, path2, length2 - length1)
    decide (popN t.2.1 t.2.2 = t.1)

/-! ## Namespace stripping (`stripNamespaces`, util.cpp:386-420) -/

/-- Worker for `MString::split`: cut at every occurrence of `c`, keeping
empty pieces (they are filtered out afterwards). -/
def splitChAux (c : Char) : List Char → List Char → List (List Char)
  | [], acc => [acc.reverse]
  | x :: xs, acc =>
      if x = c then acc.reverse :: splitChAux c xs []
      else splitChAux c xs (x :: acc)

/-- Maya's `MString::split`: split at each occurrence of the delimiter;
leading, trailing and consecutive delimiters produce no tokens (empty
substrings are dropped). -/
def mayaSplit (c : Char) (s : List Char) : List (List Char) :=
  (splitChAux c s []).filter (fun t => !t.isEmpty)

/-- The accumulation loop of util.cpp:409-415: append each component but
the last followed by `":"`, then append the last component. -/
def stripJoin : List (List Char) → List Char
  | [] => []
  | [a] => a
  | a :: rest => a ++ ':' :: stripJoin rest

/-- util.cpp:386-420 (`stripNamespaces`).  Maya strings are modelled as
character lists. -/
def stripNamespaces (iNodeName : List Char) (iDepth : Nat) : List Char :=
  if iDepth = 0 then iNodeName
  else
    let strArray := mayaSplit ':' iNodeName
    let len := strArray.length
    if len = 0 then iNodeName
    else if len ≤ iDepth + 1 then strArray.getLastD []
    else stripJoin (strArray.drop iDepth)

/-! ## DAG path to USD path (`MDagPathToUsdPath`, util.cpp:678-712) -/

/-- `MDagPath::fullPathName`: `"|"` followed by the node name, for each
node on the path. -/
def fullPathName : List DagNode → List Char
  | [] => []
  | n :: rest => '|' :: (n.name ++ fullPathName rest)

/-- `std::replace` over the characters of a string. -/
def replaceAll (a b : Char) (s : List Char) : List Char :=
  s.map (fun ch => if ch = a then b else ch)

/-- `MDagPath::hasFn(MFn::kTransform)`: a property of the node the path
ends at; false for the world root. -/
def hasTransformFn (p : List DagNode) : Bool :=
  match p.getLast? with
  | some n => n.isTransform
  | none => false

/-- `MDagPath::numberOfShapesDirectlyBelow` for the node the path ends
at. -/
def numberOfShapesDirectlyBelow (p : List DagNode) : Nat :=
  match p.getLast? with
  | some n => n.shapesBelow
  | none => 0

/-- util.cpp:678-694 (`_IsShape`): not a transform, the parent is a
transform, and the parent has exactly one shape directly below it. -/
def IsShape (dagPath : List DagNode) : Bool :=
  if hasTransformFn dagPath then false
  else
    let parentDagPath := dagPath.dropLast
    if !hasTransformFn parentDagPath then false
    else numberOfShapesDirectlyBelow parentDagPath == 1

/-- Modelled from the spec: the interchange format's scene-path type is
host code (`SdfPath` is not under `src/`); its parent-path operation
removes the final `/`-separated component, the parent of a one-component
absolute path being the absolute root `"/"`. -/
def SdfGetParentPath (s : List Char) : List Char :=
  let r := (((s.reverse).dropWhile (fun ch => ch != '/')).drop 1).reverse
  if r.isEmpty then ['/'] else r

/-- util.cpp:696-712 (`MDagPathToUsdPath`). -/
def MDagPathToUsdPath (dagPath : List DagNode) (mergeTransformAndShape : Bool) :
    List Char :=
  let usdPathStr := replaceAll ':' '_' (replaceAll '|' '/' (fullPathName dagPath))
  if mergeTransformAndShape && IsShape dagPath then SdfGetParentPath usdPathStr
  else usdPathStr

/-- Well-formedness of a Maya node name: nonempty, and free of the path
separator characters (Maya forbids `|` and `/` in node names; `:` is the
namespace separator and is allowed). -/
def dagNodeOk (n : DagNode) : Bool :=
  decide (n.name ≠ [] ∧ '|' ∉ n.name ∧ '/' ∉ n.name)

/-! ## Dependency-graph connections (`Connect`, util.cpp:654-674) -/

/-- The mutable state `Connect` acts on: the set of plug-to-plug
connections of Maya's dependency graph, as (source, destination) pairs. -/
structure DGGraph where
  conns : List (Nat × Nat)
deriving DecidableEq

/-- Source plugs of the connections coming into `dst`
(`MPlug::connectedTo(asDst = true)`). -/
def incomingSources (g : DGGraph) (dst : Nat) : List Nat :=
  (g.conns.filter (fun c => c.2 == dst)).map (fun c => c.1)

/-- util.cpp:654-674: when `clearDstPlug` is set, every connection into
`dstPlug` is disconnected through an `MDGModifier`; then `srcPlug` is
connected to `dstPlug` and the modifier is executed. -/
def Connect (g : DGGraph) (srcPlug dstPlug : Nat) (clearDstPlug : Bool) :
    DGGraph :=
  let g1 := if clearDstPlug then
      DGGraph.mk (g.conns.filter (fun c => c.2 != dstPlug))
    else g
  DGGraph.mk (g1.conns ++ [(srcPlug, dstPlug)])

/-! ## `GetConnected` (util.cpp:642-652) -/

/-- util.cpp:642-652.  `status` and `conn` are the outcome of the host call
`plug.connectedTo(conn, true, false, &status)`; the result is the returned
plug, `none` standing for the null `MPlug()`. -/
def GetConnected (status : Bool) (conn : List Nat) : Option Nat :=
  if !status || conn.length != 1 then none
  else conn.head?

/-! ## Plug value marshalling (`setPlugValue`, util.cpp:729-799) -/

/-- A Maya plug value as written by the setters the file uses; `munset`
is the state before any write. -/
inductive MayaValue where
  | mfloat : Rat → MayaValue
  | mbool : Bool → MayaValue
  | mstring : String → MayaValue
  | mshort : Nat → MayaValue
  | munset : MayaValue
deriving DecidableEq

/-- The value a `UsdAttribute::Get` can yield, restricted to the held
types the file inspects; `other` stands for every other held type.
Floats are modelled as rationals. -/
inductive VtValue where
  | float : Rat → VtValue
  | vec3f : Rat → Rat → Rat → VtValue
  | bool : Bool → VtValue
  | string : String → VtValue
  | token : String → VtValue
  | other : VtValue
deriving DecidableEq

/-- The two queries `setPlugValue` makes of the USD attribute: the value
`Get` produces (at the given time; `none` when `Get` fails) and whether
`GetRoleName()` is the color role. -/
structure UsdAttr where
  value : Option VtValue
  roleIsColor : Bool
deriving DecidableEq

/-- The Maya plug as `setPlugValue` sees it: the host-query results it
consults and the stored values it writes. `childrenWriteOk` has one entry
per compound child (`child(i)` fails beyond its length); an entry tells
whether that child's `setFloat` succeeds. -/
structure MPlugV where
  isCompound : Bool
  writeOk : Bool
  childrenWriteOk : List Bool
  attrOk : Bool
  isEnum : Bool
  enumFields : List String
  value : MayaValue
  childValues : List Rat
deriving DecidableEq

/-- `childPlug = attrPlug.child(i, &status); childPlug.setFloat q`:
`none` when the child does not exist or the write fails (the C++ returns
false at the corresponding `CHECK_MSTATUS_AND_RETURN`); on success the
child's stored value becomes `q`. -/
def setChildFloat (plug : MPlugV) (i : Nat) (q : Rat) : Option MPlugV :=
  if plug.childrenWriteOk.getD i false then
    some { plug with childValues := plug.childValues.set i q }
  else none

/-- util.cpp:729-741 (`_GetVec`): the read value, run through the host's
linear-to-display colour conversion (the parameter `conv` stands for
`GfConvertLinearToDisplay`) when the attribute's role is color. -/
def GetVecQ (conv : Rat × Rat × Rat → Rat × Rat × Rat) (attr : UsdAttr)
    (v : Rat × Rat × Rat) : Rat × Rat × Rat :=
  if attr.roleIsColor then conv v else v

/-- `MFnEnumAttribute::fieldIndex`: index of the named field. -/
def enumFieldIndex (fields : List String) (t : String) : Option Nat :=
  List.findIdx? (fun f => f == t) fields

/-- util.cpp:751-799 (`setPlugValue`).  Returns the C++ return value
together with the plug state after the call.  Each
`CHECK_MSTATUS_AND_RETURN(status, false)` becomes an early `(false, _)`
with the writes performed so far kept; a token on a non-enum attribute
falls through to the final status check with the status of the successful
`attribute()` call. -/
def setPlugValue (conv : Rat × Rat × Rat → Rat × Rat × Rat)
    (usdAttr : UsdAttr) (attrPlug : MPlugV) : Bool × MPlugV :=
  match usdAttr.value with
  | none => (false, attrPlug)
  | some val =>
    match val with
    | .float q =>
        if attrPlug.writeOk then (true, { attrPlug with value := .mfloat q })
        else (false, attrPlug)
    | .vec3f a b c =>
        if attrPlug.isCompound then
          let v := GetVecQ conv usdAttr (a, b, c)
          match setChildFloat attrPlug 0 v.1 with
          | none => (false, attrPlug)
          | some p1 =>
            match setChildFloat p1 1 v.2.1 with
            | none => (false, p1)
            | some p2 =>
              match setChildFloat p2 2 v.2.2 with
              | none => (false, p2)
              | some p3 => (true, p3)
        else (false, attrPlug)
    | .bool b =>
        if attrPlug.writeOk then (true, { attrPlug with value := .mbool b })
        else (false, attrPlug)
    | .string s =>
        if attrPlug.writeOk then (true, { attrPlug with value := .mstring s })
        else (false, attrPlug)
    | .token t =>
        if !attrPlug.attrOk then (false, attrPlug)
        else if attrPlug.isEnum then
          match enumFieldIndex attrPlug.enumFields t with
          | none => (false, attrPlug)
          | some i =>
              if attrPlug.writeOk then
                (true, { attrPlug with value := .mshort i })
              else (false, attrPlug)
        else (true, attrPlug)
    | .other => (false, attrPlug)

/-- The held types claim C3 lists as marshalable for a given plug: float,
a 3-float vector on a compound plug, bool, string, or a token on an enum
attribute. -/
def marshalable (val : VtValue) (plug : MPlugV) : Bool :=
  match val with
  | .float _ => true
  | .vec3f _ _ _ => plug.isCompound
  | .bool _ => true
  | .string _ => true
  | .token _ => plug.isEnum
  | .other => false

/-- Whether the host accepts the complete write of `val` into `plug`. -/
def writeSucceeds (val : VtValue) (plug : MPlugV) : Bool :=
  match val with
  | .float _ => plug.writeOk
  | .bool _ => plug.writeOk
  | .string _ => plug.writeOk
  | .vec3f _ _ _ => plug.isCompound && plug.childrenWriteOk.getD 0 false
      && plug.childrenWriteOk.getD 1 false && plug.childrenWriteOk.getD 2 false
  | .token t => plug.attrOk && plug.isEnum
      && (enumFieldIndex plug.enumFields t).isSome && plug.writeOk
  | .other => false

/-! ## Shader colours (`GetLinearShaderColor`, util.cpp:440-640) -/

/-- What the two colour-retrieval helpers can query of one Maya shader
object: `lambert` is the `(color, transparency)` pair when the
`MFnLambertShader` function set initializes on the object; `depColor` and
`depTransp` are the child values of a generic dependency node's `color`
and `transparency` plugs, when `findPlug` finds them. -/
structure ShaderObjM where
  lambert : Option ((Rat × Rat × Rat) × (Rat × Rat × Rat))
  depColor : Option (Rat × Rat × Rat)
  depTransp : Option (Rat × Rat × Rat)
deriving DecidableEq

/-- util.cpp:482-509 (`_GetColorAndTransparencyFromLambert`); `conv`
stands for the host's `GfConvertDisplayToLinear`.  Alpha is one minus the
average of the shader transparency. -/
def GetColorAndTransparencyFromLambert
    (conv : Rat × Rat × Rat → Rat × Rat × Rat) (sh : ShaderObjM) :
    Option ((Rat × Rat × Rat) × Rat) :=
  match sh.lambert with
  | none => none
  | some (c, trn) => some (conv c, 1 - (trn.1 + trn.2.1 + trn.2.2) / 3)

/-- util.cpp:511-546 (`_GetColorAndTransparencyFromDepNode`): fails unless
both the `color` and the `transparency` plug are found. -/
def GetColorAndTransparencyFromDepNode
    (conv : Rat × Rat × Rat → Rat × Rat × Rat) (sh : ShaderObjM) :
    Option ((Rat × Rat × Rat) × Rat) :=
  match sh.depColor, sh.depTransp with
  | some c, some trn =>
      some (conv c, 1 - (trn.1 / 3 + trn.2.1 / 3 + trn.2.2 / 3))
  | _, _ => none

/-- util.cpp:566-578: try the lambert API first, then the generic
dependency-node plugs; `none` for a null shader object or when both
fail (the defaults then stay in place and an error is displayed). -/
def retrieveShader (conv : Rat × Rat × Rat → Rat × Rat × Rat)
    (sh : Option ShaderObjM) : Option ((Rat × Rat × Rat) × Rat) :=
  match sh with
  | none => none
  | some s =>
      match GetColorAndTransparencyFromLambert conv s with
      | some r => some r
      | none => GetColorAndTransparencyFromDepNode conv s

/-- The RGB entry stored for one shader: the retrieved colour, or the
`(1, 1, 1)` default of util.cpp:560-564. -/
def rgbEntry (conv : Rat × Rat × Rat → Rat × Rat × Rat)
    (sh : Option ShaderObjM) : Rat × Rat × Rat :=
  ((retrieveShader conv sh).map Prod.fst).getD (1, 1, 1)

/-- The alpha entry stored for one shader: the retrieved alpha, or the
`1.0` default of util.cpp:565. -/
def alphaEntry (conv : Rat × Rat × Rat → Rat × Rat × Rat)
    (sh : Option ShaderObjM) : Rat :=
  ((retrieveShader conv sh).map Prod.snd).getD 1

/-- Whether values were retrieved for the shader (`gotValues` of
util.cpp:570-578). -/
def gotShader (conv : Rat × Rat × Rat → Rat × Rat × Rat)
    (sh : Option ShaderObjM) : Bool :=
  (retrieveShader conv sh).isSome

/-- The epsilon passed at util.cpp:583 and util.cpp:590. -/
def epsClose : Rat := 1 / 1000000000

/-- Modelled from the spec: the interchange's `GfIsClose` (host `Gf`
library, not under `src/`): the two values agree within `eps`. -/
def GfIsCloseQ (a b eps : Rat) : Bool := decide (|a - b| < eps)

/-- The three per-component closeness tests of util.cpp:582-587. -/
def close3 (u v : Rat × Rat × Rat) : Bool :=
  GfIsCloseQ u.1 v.1 epsClose && GfIsCloseQ u.2.1 v.2.1 epsClose &&
    GfIsCloseQ u.2.2 v.2.2 epsClose

/-- `constantRGB` after the loop of util.cpp:558-605: every shader whose
values were retrieved has its RGB entry close (within `1e-9`, per
component) to the first entry of the array. -/
def rgbConstant (conv : Rat × Rat × Rat → Rat × Rat × Rat)
    (objs : List (Option ShaderObjM)) : Bool :=
  objs.all (fun o => !gotShader conv o ||
    close3 (rgbEntry conv (objs.headD none)) (rgbEntry conv o))

/-- `constantAlpha` after the loop of util.cpp:558-605. -/
def alphaConstant (conv : Rat × Rat × Rat → Rat × Rat × Rat)
    (objs : List (Option ShaderObjM)) : Bool :=
  objs.all (fun o => !gotShader conv o ||
    GfIsCloseQ (alphaEntry conv (objs.headD none)) (alphaEntry conv o) epsClose)

/-- One shading-group entry of `MFnDagNode::getConnectedSetsAndMembers`:
the shader object connected to the set's `surfaceShader` plug (`none`
when that plug has no incoming connection, in which case the C++ keeps a
null `MObject`), and the face indices of the set's membership
component. -/
structure SgEntry where
  shader : Option ShaderObjM
  faces : List Nat
deriving DecidableEq

/-- The assignment of util.cpp:469-477: per face when there are several
shading groups on a mesh, else into slot 0. -/
def assignShader (arr : List (Option ShaderObjM)) (e : SgEntry)
    (perFace : Bool) : List (Option ShaderObjM) :=
  if perFace then e.faces.foldl (fun a f => a.set f e.shader) arr
  else arr.set 0 e.shader

/-- util.cpp:440-480 (`_getAttachedMayaShaderObjects`): sizes the output
array (1 slot for one shading group or a non-mesh, `numFaces` slots for
several groups on a mesh), then walks the shading groups recording
whether any has a connected shader and storing each shader object. -/
def getAttachedMayaShaderObjects (sgObjs : List SgEntry) (numFaces : Nat) :
    Bool × List (Option ShaderObjM) :=
  let len := if sgObjs.length = 1 ∨ numFaces = 0 then 1
             else if sgObjs.length > 1 then numFaces else 0
  let perFace : Bool := decide (sgObjs.length > 1 ∧ numFaces > 0)
  sgObjs.foldl
    (fun (st : Bool × List (Option ShaderObjM)) e =>
      (st.1 || e.shader.isSome, assignShader st.2 e perFace))
    (false, List.replicate len none)

/-- A `TfToken` as used for the interpolation outputs: the two tokens the
file writes, or any other caller-provided token. -/
inductive TfTokenM where
  | constant
  | uniform
  | custom : String → TfTokenM
deriving DecidableEq

/-- The four outputs of `_getMayaShadersColor`; `none` data stands for a
null data pointer (output not requested). -/
structure ColorsOut where
  rgbData : Option (List (Rat × Rat × Rat))
  rgbInterp : TfTokenM
  alphaData : Option (List Rat)
  alphaInterp : TfTokenM
deriving DecidableEq

/-- util.cpp:548-623 (`_getMayaShadersColor`).  The entry arrays and the
constancy flags are as computed by the loop; resizing a nonempty array to
one element keeps its first entry (`List.take 1`); an interpolation token
is written only in the branches that write it in the C++. -/
def getMayaShadersColor (conv : Rat × Rat × Rat → Rat × Rat × Rat)
    (numFaces : Nat) (shaderObjs : List (Option ShaderObjM))
    (wantRGB wantAlpha : Bool) (rgbInterp0 alphaInterp0 : TfTokenM) :
    ColorsOut :=
  let e := shaderObjs.map (rgbEntry conv)
  let a := shaderObjs.map (alphaEntry conv)
  let rgbPart :=
    if wantRGB then
      if rgbConstant conv shaderObjs then (some (e.take 1), TfTokenM.constant)
      else if e.length = numFaces then (some e, TfTokenM.uniform)
      else (some e, rgbInterp0)
    else (none, rgbInterp0)
  let alphaPart :=
    if wantAlpha then
      if alphaConstant conv shaderObjs then (some (a.take 1), TfTokenM.constant)
      else if a.length = numFaces then (some a, TfTokenM.uniform)
      else (some a, alphaInterp0)
    else (none, alphaInterp0)
  ColorsOut.mk rgbPart.1 rgbPart.2 alphaPart.1 alphaPart.2

/-- util.cpp:625-640 (`GetLinearShaderColor`): false (outputs untouched)
when no shading group has a connected shader, else the colour
extraction. -/
def GetLinearShaderColor (conv : Rat × Rat × Rat → Rat × Rat × Rat)
    (sgObjs : List SgEntry) (numFaces : Nat) (wantRGB wantAlpha : Bool)
    (rgbInterp0 alphaInterp0 : TfTokenM) : Bool × ColorsOut :=
  let r := getAttachedMayaShaderObjects sgObjs numFaces
  if r.1 then
    (true, getMayaShadersColor conv numFaces r.2 wantRGB wantAlpha
      rgbInterp0 alphaInterp0)
  else (false, ColorsOut.mk none rgbInterp0 none alphaInterp0)

/-! ## Animation-sampling classification (`getSampledType`, util.cpp:87-170) -/

/-- The kinds of source node the classifier's switch distinguishes behind
an incoming connection: one of the four time-to-value animation-curve
types (carrying whether the curve node's input plug `"i"` is connected),
a mute node (carrying its `mute` plug value), or any other node type. -/
inductive ConnKind where
  | animCurve : Bool → ConnKind
  | mute : Bool → ConnKind
  | other : ConnKind
deriving DecidableEq

/-- A Maya plug as `getSampledType` inspects it: the sources connected
into it (`connectedTo(conns, true, false)`), `isArray()` with the plugs
its `numConnectedElements()`/`connectionByPhysicalIndex` enumeration
yields, `isCompound()` with its `numChildren()` children, and its
`numConnectedChildren()` count. -/
inductive Plug where
  | mk : List ConnKind → Bool → List Plug → Bool → List Plug → Nat → Plug

/-- Incoming connections of the plug. -/
def Plug.conns : Plug → List ConnKind
  | .mk c _ _ _ _ _ => c

/-- `MPlug::isArray`. -/
def Plug.isArrayPlug : Plug → Bool
  | .mk _ a _ _ _ _ => a

/-- The connected elements of an array plug. -/
def Plug.elems : Plug → List Plug
  | .mk _ _ e _ _ _ => e

/-- `MPlug::isCompound`. -/
def Plug.isCompoundPlug : Plug → Bool
  | .mk _ _ _ c _ _ => c

/-- The children of a compound plug. -/
def Plug.children : Plug → List Plug
  | .mk _ _ _ _ ch _ => ch

/-- `MPlug::numConnectedChildren`. -/
def Plug.ncc : Plug → Nat
  | .mk _ _ _ _ _ n => n

/-- The connection loop of util.cpp:125-169: the first animation-curve
connection decides sampled (1, when its input is connected) or curve (2);
the first mute connection decides static (0, muted) or curve (2); other
connections are skipped; with no deciding connection the plug is sampled
(1). -/
def scanConns : List ConnKind → Int
  | [] => 1
  | ConnKind.animCurve inc :: _ => if inc then 1 else 2
  | ConnKind.mute m :: _ => if m then 0 else 2
  | ConnKind.other :: rest => scanConns rest

/-- The element/child loops of util.cpp:101-107 and 113-118: return the
first positive classification, else fall through to 0; `none` when an
undetermined (out-of-fuel) entry is reached first. -/
def firstSampled : List (Option Int) → Option Int
  | [] => some 0
  | none :: _ => none
  | some r :: rest => if 0 < r then some r else firstSampled rest

/-- util.cpp:87-170 (`getSampledType`), fuel-indexed: the fuel bounds the
recursion depth, `none` meaning the bound was hit (claim C4 exhibits a
sufficient bound).  Array elements and compound children are classified
with `includeConnectedChildren = true`, as in the source. -/
def getSampledType : Nat → Plug → Bool → Option Int
  | 0, _, _ => none
  | fuel + 1, Plug.mk conns isArr elems isComp children ncc,
      includeConnectedChildren =>
    if conns.length = 0 then
      if isArr then
        firstSampled (elems.map (fun e => getSampledType fuel e true))
      else if isComp ∧ ncc ≠ 0 ∧ includeConnectedChildren then
        firstSampled (children.map (fun c => getSampledType fuel c true))
      else some 0
    else some (scanConns conns)

/-- A single connection that classifies its destination as animating
(non-static): an animation curve (sampled or curve), an un-muted mute
node (curve), or a connection from any other node (sampled). -/
def isAnimatingConn : ConnKind → Bool
  | ConnKind.mute m => !m
  | _ => true

/-- The claim's search space: an animating connection on the plug itself,
on one of its connected array elements, or — when
`includeConnectedChildren` is set — on one of a compound's children. -/
def hasAnimatingConnection (p : Plug) (includeConnectedChildren : Bool) : Bool :=
  p.conns.any isAnimatingConn ||
  (p.isArrayPlug && p.elems.any (fun e => e.conns.any isAnimatingConn)) ||
  (includeConnectedChildren && p.isCompoundPlug &&
    p.children.any (fun c => c.conns.any isAnimatingConn))

/-- Invariants of real Maya plugs, to the depth the classification of a
plug inspects: a plug has at most one incoming connection (likewise its
elements and children); a connected destination plug has no connected
elements and no connected children (destinations are exclusive along the
parent/child hierarchy); `numConnectedChildren` is zero only when no
child is connected; an array plug has no direct children. -/
def plugWF (p : Plug) : Bool :=
  decide (p.conns.length ≤ 1) &&
  p.elems.all (fun e => decide (e.conns.length ≤ 1)) &&
  p.children.all (fun c => decide (c.conns.length ≤ 1)) &&
  (p.conns.isEmpty ||
    (p.elems.all (fun e => e.conns.isEmpty) &&
      p.children.all (fun c => c.conns.isEmpty))) &&
  (decide (p.ncc ≠ 0) || p.children.all (fun c => c.conns.isEmpty)) &&
  (!p.isArrayPlug || p.children.isEmpty)

/-! ## Upstream dependency-graph walk (`isAnimated`, util.cpp:260-331) -/

/-- Modelled from the spec: the host's upstream iterator
(`MItDependencyGraph`, upstream / depth-first / node level) is a
host-provided iteration primitive, not code under `src/`.  It performs a
depth-first walk of the finite dependency graph from the root, visiting
each node at most once; fuel-indexed, with claim C4 exhibiting a
sufficient fuel. -/
def dgWalk (adj : Nat → List Nat) : Nat → List Nat → List Nat → Option (List Nat)
  | 0, _, _ => none
  | _ + 1, [], visited => some visited.reverse
  | fuel + 1, n :: stack, visited =>
      if n ∈ visited then dgWalk adj fuel stack visited
      else dgWalk adj fuel (adj n ++ stack) (n :: visited)

/-- The node function-set types `isAnimated` tests with `hasFn`. -/
inductive MFnType where
  | kPluginDependNode | kConstraint | kPointConstraint | kAimConstraint
  | kOrientConstraint | kScaleConstraint | kGeometryConstraint
  | kNormalConstraint | kTangentConstraint | kParentConstraint
  | kPoleVectorConstraint | kTime | kJoint | kGeometryFilt | kTweak
  | kPolyTweak | kSubdTweak | kCluster | kFluid | kPolyBoolOp
  | kExpression | kOtherFn
deriving DecidableEq

/-- One dependency-graph node as `isAnimated` inspects it: its function
sets, the `MFnExpression` construction status and animation state, and
`MAnimUtil::isAnimated(node, checkParent)` as a function of
`checkParent`. -/
structure DGNodeM where
  fns : List MFnType
  exprOk : Bool
  exprAnimated : Bool
  animCurveInHistory : Bool → Bool

/-- `MObject::hasFn`. -/
def hasFnM (n : DGNodeM) (t : MFnType) : Bool := decide (t ∈ n.fns)

/-- The always-animated node test of util.cpp:285-305 (the source lists
`kParentConstraint` twice; the duplicate is kept). -/
def nodeSpecial (n : DGNodeM) : Bool :=
  hasFnM n MFnType.kPluginDependNode || hasFnM n MFnType.kConstraint ||
  hasFnM n MFnType.kPointConstraint || hasFnM n MFnType.kAimConstraint ||
  hasFnM n MFnType.kOrientConstraint || hasFnM n MFnType.kScaleConstraint ||
  hasFnM n MFnType.kGeometryConstraint || hasFnM n MFnType.kNormalConstraint ||
  hasFnM n MFnType.kTangentConstraint || hasFnM n MFnType.kParentConstraint ||
  hasFnM n MFnType.kPoleVectorConstraint || hasFnM n MFnType.kParentConstraint ||
  hasFnM n MFnType.kTime || hasFnM n MFnType.kJoint ||
  hasFnM n MFnType.kGeometryFilt || hasFnM n MFnType.kTweak ||
  hasFnM n MFnType.kPolyTweak || hasFnM n MFnType.kSubdTweak ||
  hasFnM n MFnType.kCluster || hasFnM n MFnType.kFluid ||
  hasFnM n MFnType.kPolyBoolOp

/-- The second loop of util.cpp:322-328 over the collected nodes,
fuel-indexed per node. -/
def animCurveLoop (data : Nat → DGNodeM) (checkParent : Bool) :
    Nat → List Nat → Option Bool
  | _, [] => some false
  | 0, _ :: _ => none
  | fuel + 1, i :: rest =>
      if (data i).animCurveInHistory checkParent then some true
      else animCurveLoop data checkParent fuel rest

/-- The first loop of util.cpp:281-320 over the iterator's nodes,
fuel-indexed per node visit: early true for an always-animated type or an
animated expression, otherwise the node is collected for the
animation-curve pass. -/
def dgScanLoop (data : Nat → DGNodeM) (checkParent : Bool) :
    Nat → List Nat → List Nat → Option Bool
  | fuel, [], acc => animCurveLoop data checkParent fuel acc
  | 0, _ :: _, _ => none
  | fuel + 1, i :: rest, acc =>
      let n := data i
      if nodeSpecial n then some true
      else if hasFnM n MFnType.kExpression && n.exprOk && n.exprAnimated then
        some true
      else dgScanLoop data checkParent fuel rest (acc ++ [i])

/-- util.cpp:260-331 (`isAnimated`): run the host's upstream walk from
the object, then the two classification loops over the visited nodes. -/
def isAnimated (data : Nat → DGNodeM) (adj : Nat → List Nat) (object : Nat)
    (checkParent : Bool) (fuel : Nat) : Option Bool :=
  match dgWalk adj fuel [object] [] with
  | none => none
  | some order => dgScanLoop data checkParent fuel order []

/-- A fuel sufficient for both the upstream walk over a dependency graph
with node set `univ` and the two classification loops (claim C4). -/
def dgFuel (univ : List Nat) (adj : Nat → List Nat) : Nat :=
  2 + ((univ.map (fun n => 1 + (adj n).length)).sum) + 2 * univ.length

/-! ## Theorems for C10, C9, C2, C8 -/

/-- C10 counterexample: for rotation order YZX the function writes the axis
sequence composing the order, `(1, 2, 0)` (Y, Z, X), while the positions the
three axes occupy in that order are `(2, 0, 1)` (X is third, Y first,
Z second).  So the outputs are not "each axis assigned its position in the
order" as claimed. -/
theorem getRotOrder_kYZX_writes_axes_not_positions :
    getRotOrder RotationOrder.kYZX 5 5 5 = (true, 1, 2, 0) ∧
    claimedRotOrderWrite RotationOrder.kYZX = some (2, 0, 1) ∧
    ((1 : Nat), (2 : Nat), (0 : Nat)) ≠ ((2 : Nat), (0 : Nat), (1 : Nat)) := by
  decide

/-- C10 (amended): for each of the six recognized rotation orders,
`getRotOrder` returns `true` and writes a permutation of `{0, 1, 2}` to its
three output parameters, namely the axis indices composing the order in
sequence (`oXAxis` the first axis of the order, `oYAxis` the second,
`oZAxis` the third); for any other input value it returns `false` and
leaves all three output parameters unmodified. -/
theorem getRotOrder_spec (o : RotationOrder) (x y z : Nat) :
    (∀ l, rotOrderAxes o = some l →
        getRotOrder o x y z = (true, l.getD 0 0, l.getD 1 0, l.getD 2 0) ∧
        List.Perm l [0, 1, 2]) ∧
    (rotOrderAxes o = none → getRotOrder o x y z = (false, x, y, z)) := by
  cases o <;> refine ⟨fun l hl => ?_, fun hn => ?_⟩
  all_goals try exact Option.noConfusion hl
  all_goals try exact Option.noConfusion hn
  all_goals try exact rfl
  all_goals injection hl with hl
  all_goals subst hl
  all_goals exact ⟨rfl, by decide⟩

/-- Witness for C10 (amended) at a recognized and at an unrecognized
order. -/
theorem getRotOrder_spec_witness :
    getRotOrder RotationOrder.kZXY 4 4 4 = (true, 2, 0, 1) ∧
    getRotOrder RotationOrder.kInvalid 4 4 4 = (false, 4, 4, 4) := by
  refine ⟨?_, (getRotOrder_spec RotationOrder.kInvalid 4 4 4).2 rfl⟩
  have h := ((getRotOrder_spec RotationOrder.kZXY 4 4 4).1 [2, 0, 1] rfl).1
  simpa using h

/-- C9: `isAncestorDescendentRelationship` is symmetric, and two distinct
paths of equal length are never reported as related. -/
theorem isAncestorDescendent_symm (p1 p2 : List DagNode) :
    isAncestorDescendentRelationship p1 p2 =
      isAncestorDescendentRelationship p2 p1 ∧
    (p1.length = p2.length → p1 ≠ p2 →
      isAncestorDescendentRelationship p1 p2 = false) := by
  constructor
  · unfold isAncestorDescendentRelationship
    rcases Nat.lt_trichotomy p1.length p2.length with h | h | h
    · have h1 : ¬ (p1.length = p2.length ∧ p1 ≠ p2) :=
        fun hc => Nat.ne_of_lt h hc.1
      have h2 : ¬ (p2.length = p1.length ∧ p2 ≠ p1) :=
        fun hc => Nat.ne_of_gt h hc.1
      have h3 : ¬ p1.length > p2.length := Nat.not_lt.mpr (Nat.le_of_lt h)
      have h4 : p2.length > p1.length := h
      simp [h1, h2, h3, h4]
    · by_cases he : p1 = p2
      · subst he
        simp
      · have h1 : p1.length = p2.length ∧ p1 ≠ p2 := ⟨h, he⟩
        have h2 : p2.length = p1.length ∧ p2 ≠ p1 := ⟨h.symm, fun hc => he hc.symm⟩
        rw [if_pos h1, if_pos h2]
    · have h1 : ¬ (p1.length = p2.length ∧ p1 ≠ p2) :=
        fun hc => Nat.ne_of_gt h hc.1
      have h2 : ¬ (p2.length = p1.length ∧ p2 ≠ p1) :=
        fun hc => Nat.ne_of_lt h hc.1
      have h3 : p1.length > p2.length := h
      have h4 : ¬ p2.length > p1.length := Nat.not_lt.mpr (Nat.le_of_lt h)
      simp [h1, h2, h3, h4]
  · intro hl hne
    unfold isAncestorDescendentRelationship
    simp [hl, hne]

/-- Witness for C9 at two concrete distinct paths of equal length. -/
theorem isAncestorDescendent_symm_witness :
    isAncestorDescendentRelationship [DagNode.mk ['a'] true 0]
      [DagNode.mk ['b'] true 0] = false := by
  exact (isAncestorDescendent_symm _ _).2 rfl (by decide)

/-- C2 counterexample: `Connect` is not a stateless query; on an empty
dependency graph, connecting plug 0 to plug 1 changes the graph. -/
theorem Connect_modifies_graph :
    Connect (DGGraph.mk []) 0 1 false ≠ DGGraph.mk [] := by
  decide

/-- C2 (amended): the file is not free of scene mutation: `Connect` edits
the dependency graph.  After `Connect src dst clear`, the incoming
connections of `dst` are exactly `[src]` when `clear` is true, and with
`clear` false the connection `src → dst` is appended to the existing
connection list (`setPlugValue`, treated with C3, likewise writes the
target plug).  The remaining functions of the file are queries and return
no modified state. -/
theorem Connect_spec (g : DGGraph) (src dst : Nat) :
    incomingSources (Connect g src dst true) dst = [src] ∧
    (Connect g src dst false).conns = g.conns ++ [(src, dst)] := by
  constructor
  · unfold Connect incomingSources
    simp [List.filter_append, List.filter_filter]
  · rfl

/-- The manual joining loop of `stripNamespaces` is `List.intercalate`
with a `":"` separator. -/
theorem stripJoin_eq_intercalate :
    ∀ l : List (List Char), stripJoin l = List.intercalate [':'] l := by
  intro l
  induction l with
  | nil => simp [stripJoin, List.intercalate]
  | cons a rest ih =>
      cases rest with
      | nil => simp [stripJoin, List.intercalate]
      | cons b r =>
          rw [show stripJoin (a :: b :: r) = a ++ ':' :: stripJoin (b :: r) from rfl, ih]
          simp [List.intercalate, List.intersperse]

/-- C5: `stripNamespaces(name, 0)` returns the name unchanged; when the
name splits on `':'` into (some, but) at most `depth + 1` components, only
the final component is returned; otherwise the first `depth` components
are removed and the rest are re-joined with `':'`. -/
theorem stripNamespaces_spec (name : List Char) (depth : Nat) :
    (depth = 0 → stripNamespaces name depth = name) ∧
    (0 < depth → mayaSplit ':' name ≠ [] →
      (mayaSplit ':' name).length ≤ depth + 1 →
      stripNamespaces name depth = (mayaSplit ':' name).getLastD []) ∧
    (0 < depth → depth + 1 < (mayaSplit ':' name).length →
      stripNamespaces name depth =
        List.intercalate [':'] ((mayaSplit ':' name).drop depth)) := by
  refine ⟨fun h0 => ?_, fun hd hne hle => ?_, fun hd hlt => ?_⟩
  · simp [stripNamespaces, h0]
  · have hd0 : ¬ depth = 0 := Nat.pos_iff_ne_zero.mp hd
    have hlen : ¬ (mayaSplit ':' name).length = 0 :=
      fun hc => hne (List.length_eq_zero.mp hc)
    simp [stripNamespaces, hd0, hlen, hle]
  · have hd0 : ¬ depth = 0 := Nat.pos_iff_ne_zero.mp hd
    have hlen : ¬ (mayaSplit ':' name).length = 0 := by omega
    have hgt : ¬ (mayaSplit ':' name).length ≤ depth + 1 := by omega
    simp [stripNamespaces, hd0, hlen, hgt, stripJoin_eq_intercalate]

/-- Witness for C5: stripping one namespace from `"ns:sub:obj"` keeps
`"sub:obj"`, stripping five keeps the final `"obj"`. -/
theorem stripNamespaces_spec_witness :
    stripNamespaces ['n', 's', ':', 's', 'u', 'b', ':', 'o', 'b', 'j'] 1 =
      ['s', 'u', 'b', ':', 'o', 'b', 'j'] ∧
    stripNamespaces ['n', 's', ':', 's', 'u', 'b', ':', 'o', 'b', 'j'] 5 =
      ['o', 'b', 'j'] := by
  constructor
  · exact ((stripNamespaces_spec
      ['n', 's', ':', 's', 'u', 'b', ':', 'o', 'b', 'j'] 1).2.2
        (by decide) (by decide)).trans (by decide)
  · exact ((stripNamespaces_spec
      ['n', 's', ':', 's', 'u', 'b', ':', 'o', 'b', 'j'] 5).2.1
        (by decide) (by decide) (by decide)).trans (by decide)

/-- Appending paths concatenates their full path names. -/
theorem fullPathName_append (p q : List DagNode) :
    fullPathName (p ++ q) = fullPathName p ++ fullPathName q := by
  induction p with
  | nil => simp [fullPathName]
  | cons n rest ih => simp [fullPathName, ih]

/-- Dropping a prefix whose elements all satisfy the predicate. -/
theorem dropWhile_append_of_all (f : Char → Bool) (A B : List Char)
    (h : ∀ a ∈ A, f a = true) :
    List.dropWhile f (A ++ B) = List.dropWhile f B := by
  induction A with
  | nil => simp
  | cons a rest ih =>
      have ha : f a = true := h a (by simp)
      simp only [List.cons_append, List.dropWhile_cons, ha, if_true]
      exact ih (fun x hx => h x (by simp [hx]))

/-- Characters of a sanitized well-formed node name are never `'/'`. -/
theorem sanitized_name_no_slash (n : DagNode) (h : dagNodeOk n = true) :
    ∀ ch ∈ replaceAll ':' '_' (replaceAll '|' '/' n.name), (ch != '/') = true := by
  intro ch hch
  simp only [replaceAll, List.map_map, List.mem_map, Function.comp] at hch
  obtain ⟨c, hc, hrw⟩ := hch
  obtain ⟨-, hbar, hslash⟩ := of_decide_eq_true h
  have hcbar : ¬ c = '|' := fun hx => hbar (hx ▸ hc)
  have hcslash : ¬ c = '/' := fun hx => hslash (hx ▸ hc)
  rw [bne_iff_ne]
  subst hrw
  simp only [hcbar, if_false]
  by_cases hcc : c = ':'
  · simp [hcc]
  · simp only [hcc, if_false]
    exact hcslash

/-- Parent of the converted path of `q ++ [n]` is the converted path
of `q`. -/
theorem sdfParent_of_converted (q : List DagNode) (n : DagNode)
    (hn : dagNodeOk n = true) (hq : q ≠ []) :
    SdfGetParentPath
        (replaceAll ':' '_' (replaceAll '|' '/' (fullPathName (q ++ [n])))) =
      replaceAll ':' '_' (replaceAll '|' '/' (fullPathName q)) := by
  set A := replaceAll ':' '_' (replaceAll '|' '/' (fullPathName q)) with hA
  set B := replaceAll ':' '_' (replaceAll '|' '/' n.name) with hB
  have hsplit :
      replaceAll ':' '_' (replaceAll '|' '/' (fullPathName (q ++ [n]))) =
        A ++ '/' :: B := by
    rw [fullPathName_append]
    show replaceAll ':' '_' (replaceAll '|' '/'
      (fullPathName q ++ ('|' :: (n.name ++ fullPathName [])))) = _
    simp only [fullPathName, List.append_nil, replaceAll, List.map_append,
      List.map_cons]
    rfl
  rw [hsplit]
  unfold SdfGetParentPath
  have hrev : (A ++ '/' :: B).reverse = B.reverse ++ '/' :: A.reverse := by
    simp
  rw [hrev]
  have hdrop : List.dropWhile (fun ch => ch != '/')
      (B.reverse ++ '/' :: A.reverse) = '/' :: A.reverse := by
    rw [dropWhile_append_of_all _ _ _
      (fun a ha => sanitized_name_no_slash n hn a (List.mem_reverse.mp ha))]
    simp [List.dropWhile_cons]
  rw [hdrop]
  simp only [List.drop_one, List.tail_cons, List.reverse_reverse]
  have hAne : ¬ A.isEmpty = true := by
    cases q with
    | nil => exact absurd rfl hq
    | cons m r =>
        simp [hA, fullPathName, replaceAll, List.isEmpty]
  simp [hAne]

/-- C6: `MDagPathToUsdPath` returns the DAG path's full path name with
every `'|'` replaced by `'/'` and every `':'` replaced by `'_'`; when
`mergeTransformAndShape` is true and the path is a non-transform shape
whose parent is a transform with exactly one shape directly below it, the
parent of the converted path — the conversion of the DAG path with its
final node dropped — is returned instead. -/
theorem MDagPathToUsdPath_spec (p : List DagNode) (merge : Bool)
    (hwf : ∀ n ∈ p, dagNodeOk n = true) :
    (¬(merge = true ∧ IsShape p = true) →
      MDagPathToUsdPath p merge =
        replaceAll ':' '_' (replaceAll '|' '/' (fullPathName p))) ∧
    ((merge = true ∧ IsShape p = true) →
      MDagPathToUsdPath p merge =
        replaceAll ':' '_' (replaceAll '|' '/' (fullPathName p.dropLast))) := by
  constructor
  · intro h
    unfold MDagPathToUsdPath
    have hcond : ¬ (merge && IsShape p) = true := by
      intro hc
      exact h ⟨(Bool.and_eq_true _ _ ▸ hc).1, (Bool.and_eq_true _ _ ▸ hc).2⟩
    simp [hcond]
  · rintro ⟨hm, hs⟩
    have hpne : p ≠ [] := by
      intro hc
      rw [hc] at hs
      simp [IsShape, hasTransformFn] at hs
    have hparent : p.dropLast ≠ [] := by
      intro hc
      unfold IsShape at hs
      rw [hc] at hs
      simp [hasTransformFn] at hs
    have hsplit : p = p.dropLast ++ [p.getLast hpne] :=
      (List.dropLast_append_getLast hpne).symm
    unfold MDagPathToUsdPath
    simp only [hm, hs, Bool.and_self, if_true]
    calc SdfGetParentPath
          (replaceAll ':' '_' (replaceAll '|' '/' (fullPathName p)))
        = SdfGetParentPath (replaceAll ':' '_' (replaceAll '|' '/'
            (fullPathName (p.dropLast ++ [p.getLast hpne])))) := by
          rw [← hsplit]
      _ = replaceAll ':' '_' (replaceAll '|' '/' (fullPathName p.dropLast)) :=
          sdfParent_of_converted _ _
            (hwf _ (List.getLast_mem hpne)) hparent

/-- Witness for C6: a one-shape transform `|ns:xf|shapeA` merges to its
parent, and an unmerged conversion keeps all components. -/
theorem MDagPathToUsdPath_spec_witness :
    MDagPathToUsdPath
        [DagNode.mk ['n', 's', ':', 'x', 'f'] true 1,
         DagNode.mk ['s', 'h', 'p'] false 0] true =
      ['/', 'n', 's', '_', 'x', 'f'] ∧
    MDagPathToUsdPath
        [DagNode.mk ['n', 's', ':', 'x', 'f'] true 1,
         DagNode.mk ['s', 'h', 'p'] false 0] false =
      ['/', 'n', 's', '_', 'x', 'f', '/', 's', 'h', 'p'] := by
  constructor
  · exact ((MDagPathToUsdPath_spec
      [DagNode.mk ['n', 's', ':', 'x', 'f'] true 1,
       DagNode.mk ['s', 'h', 'p'] false 0] true (by decide)).2
        ⟨rfl, by decide⟩).trans (by decide)
  · exact ((MDagPathToUsdPath_spec
      [DagNode.mk ['n', 's', ':', 'x', 'f'] true 1,
       DagNode.mk ['s', 'h', 'p'] false 0] false (by decide)).1
        (fun hc => by simp at hc)).trans (by decide)

/-- C8: `GetConnected` returns the single source plug exactly when the
host query succeeded with exactly one incoming connection; whenever the
query failed, or it reported zero or more than one connection, the null
plug comes back (the host status is passed through, not recovered
from). -/
theorem GetConnected_spec (status : Bool) (conn : List Nat) :
    (∀ p, status = true → conn = [p] → GetConnected status conn = some p) ∧
    (status = false ∨ conn.length = 0 ∨ 1 < conn.length →
      GetConnected status conn = none) := by
  constructor
  · intro p hs hc
    subst hs
    subst hc
    rfl
  · rintro (h | h | h)
    · subst h
      rfl
    · have hc : conn = [] := List.length_eq_zero.mp h
      subst hc
      cases status <;> rfl
    · unfold GetConnected
      have hb : (conn.length != 1) = true := by
        rw [bne_iff_ne]
        omega
      simp [hb]

/-- Witness for C8: one connection passes through, failure and fan-in
give the null plug. -/
theorem GetConnected_spec_witness :
    GetConnected true [7] = some 7 ∧ GetConnected false [7] = none ∧
    GetConnected true [7, 8] = none := by
  refine ⟨(GetConnected_spec true [7]).1 7 rfl rfl,
    (GetConnected_spec false [7]).2 (Or.inl rfl),
    (GetConnected_spec true [7, 8]).2 (Or.inr (Or.inr (by decide)))⟩

/-- C3 counterexample: a token held value on a plug whose attribute
handle is obtainable but is not an enum attribute makes `setPlugValue`
return `true` while writing nothing — the claim says an unmarshalable
held type (a token not on an enum attribute) yields `false`. -/
theorem setPlugValue_token_non_enum_cex :
    setPlugValue (fun v => v)
        (UsdAttr.mk (some (VtValue.token "tok")) false)
        (MPlugV.mk false true [] true false [] MayaValue.munset []) =
      (true, MPlugV.mk false true [] true false [] MayaValue.munset []) ∧
    marshalable (VtValue.token "tok")
        (MPlugV.mk false true [] true false [] MayaValue.munset []) = false := by
  constructor
  · rfl
  · rfl

/-- C3 (amended): `setPlugValue` returns `true` iff it read a value and
either completely wrote it to the plug, or the value was a token, the
plug's attribute handle was obtained, and the attribute is not an enum
(in which case nothing is written); reading a value of a type outside the
marshalable list leaves the plug unchanged; and a color-role vector value
is converted from linear to display color before being written to the
three compound children. -/
theorem setPlugValue_spec (conv : Rat × Rat × Rat → Rat × Rat × Rat)
    (usdAttr : UsdAttr) (attrPlug : MPlugV) :
    ((setPlugValue conv usdAttr attrPlug).1 = true ↔
      (∃ val, usdAttr.value = some val ∧
        (writeSucceeds val attrPlug = true ∨
          (∃ t, val = VtValue.token t ∧ attrPlug.attrOk = true ∧
            attrPlug.isEnum = false)))) ∧
    (∀ val, usdAttr.value = some val → marshalable val attrPlug = false →
      (setPlugValue conv usdAttr attrPlug).2 = attrPlug) ∧
    (∀ a b c, usdAttr.value = some (VtValue.vec3f a b c) →
      writeSucceeds (VtValue.vec3f a b c) attrPlug = true →
      (setPlugValue conv usdAttr attrPlug).2.childValues =
        ((attrPlug.childValues.set 0 (GetVecQ conv usdAttr (a, b, c)).1).set 1
            (GetVecQ conv usdAttr (a, b, c)).2.1).set 2
          (GetVecQ conv usdAttr (a, b, c)).2.2) ∧
    (usdAttr.value = none →
      setPlugValue conv usdAttr attrPlug = (false, attrPlug)) := by
  obtain ⟨C, W, CW, AOk, E, F, V, CV⟩ := attrPlug
  refine ⟨?_, ?_, ?_, ?_⟩
  · cases hv : usdAttr.value with
    | none => simp [setPlugValue, hv]
    | some val =>
      cases val with
      | float q =>
          by_cases hw : W = true <;>
            simp [setPlugValue, hv, writeSucceeds, hw]
      | bool b =>
          by_cases hw : W = true <;>
            simp [setPlugValue, hv, writeSucceeds, hw]
      | string s =>
          by_cases hw : W = true <;>
            simp [setPlugValue, hv, writeSucceeds, hw]
      | other => simp [setPlugValue, hv, writeSucceeds]
      | vec3f a b c =>
          by_cases hC : C = true
          · by_cases h0 : CW[0]?.getD false = true <;>
              by_cases h1 : CW[1]?.getD false = true <;>
                by_cases h2 : CW[2]?.getD false = true <;>
                  simp [setPlugValue, hv, writeSucceeds, setChildFloat,
                    hC, h0, h1, h2]
          · simp [setPlugValue, hv, writeSucceeds, hC]
      | token t =>
          by_cases hA : AOk = true
          · by_cases hE : E = true
            · cases hfi : enumFieldIndex F t with
              | none =>
                  simp [setPlugValue, hv, writeSucceeds, hA, hE, hfi]
              | some i =>
                  by_cases hw : W = true <;>
                    simp [setPlugValue, hv, writeSucceeds, hA, hE, hfi, hw]
            · simp [setPlugValue, hv, writeSucceeds, hA, hE]
          · simp [setPlugValue, hv, writeSucceeds, hA]
  · intro val hval hmar
    cases val with
    | float q => simp [marshalable] at hmar
    | bool b => simp [marshalable] at hmar
    | string s => simp [marshalable] at hmar
    | other => simp [setPlugValue, hval]
    | vec3f a b c =>
        have hC : C = false := by
          simpa [marshalable] using hmar
        simp [setPlugValue, hval, hC]
    | token t =>
        have hE : E = false := by
          simpa [marshalable] using hmar
        by_cases hA : AOk = true
        · simp [setPlugValue, hval, hA, hE]
        · simp [setPlugValue, hval, hA]
  · intro a b c hval hws
    simp only [writeSucceeds, Bool.and_eq_true,
      List.getD_eq_getElem?_getD] at hws
    obtain ⟨⟨⟨hC, h0⟩, h1⟩, h2⟩ := hws
    simp [setPlugValue, hval, hC, setChildFloat, h0, h1, h2]
  · intro h
    simp [setPlugValue, h]

/-- Witness for C3 (amended): a color vec3f write on a 3-child compound
plug succeeds and stores the converted components. -/
theorem setPlugValue_spec_witness :
    (setPlugValue (fun v => (v.2.1, v.2.2, v.1))
        (UsdAttr.mk (some (VtValue.vec3f 1 2 3)) true)
        (MPlugV.mk true true [true, true, true] true false []
          MayaValue.munset [0, 0, 0])).2.childValues =
      [2, 3, 1] := by
  have h := (setPlugValue_spec (fun v => (v.2.1, v.2.2, v.1))
      (UsdAttr.mk (some (VtValue.vec3f 1 2 3)) true)
      (MPlugV.mk true true [true, true, true] true false []
        MayaValue.munset [0, 0, 0])).2.2.1 1 2 3 rfl (by decide)
  exact h.trans (by decide)

/-- The shading-group fold never turns on `hasShader` over entries with
no connected shader. -/
theorem foldShader_fst (perFace : Bool) :
    ∀ (l : List SgEntry) (st : Bool × List (Option ShaderObjM)),
      (∀ e ∈ l, e.shader = none) →
      (l.foldl (fun st e =>
        (st.1 || e.shader.isSome, assignShader st.2 e perFace)) st).1 = st.1 := by
  intro l
  induction l with
  | nil => intro st h; rfl
  | cons e rest ih =>
      intro st h
      have he : e.shader = none := h e (by simp)
      rw [List.foldl_cons, ih _ (fun x hx => h x (by simp [hx]))]
      simp [he]

/-- Storing a shader never changes the array length. -/
theorem assignShader_length (arr : List (Option ShaderObjM)) (e : SgEntry)
    (perFace : Bool) : (assignShader arr e perFace).length = arr.length := by
  unfold assignShader
  split
  · have hfold : ∀ (fs : List Nat) (a : List (Option ShaderObjM)),
        (fs.foldl (fun a f => a.set f e.shader) a).length = a.length := by
      intro fs
      induction fs with
      | nil => intro a; rfl
      | cons f rest ih => intro a; rw [List.foldl_cons, ih]; simp
    exact hfold e.faces arr
  · simp

/-- The shading-group fold preserves the array length. -/
theorem foldShader_length (perFace : Bool) :
    ∀ (l : List SgEntry) (st : Bool × List (Option ShaderObjM)),
      ((l.foldl (fun st e =>
        (st.1 || e.shader.isSome, assignShader st.2 e perFace)) st).2).length =
        st.2.length := by
  intro l
  induction l with
  | nil => intro st; rfl
  | cons e rest ih =>
      intro st
      rw [List.foldl_cons, ih]
      simp [assignShader_length]

/-- The length of the shader array built by
`_getAttachedMayaShaderObjects` is the sizing of util.cpp:451-455. -/
theorem getAttached_len (sg : List SgEntry) (nf : Nat) :
    (getAttachedMayaShaderObjects sg nf).2.length =
      (if sg.length = 1 ∨ nf = 0 then 1
       else if sg.length > 1 then nf else 0) := by
  unfold getAttachedMayaShaderObjects
  rw [foldShader_length]
  simp

/-- When a shader was found the built array is nonempty. -/
theorem getAttached_len_pos (sg : List SgEntry) (nf : Nat)
    (h : (getAttachedMayaShaderObjects sg nf).1 = true) :
    1 ≤ (getAttachedMayaShaderObjects sg nf).2.length := by
  have hsg : sg ≠ [] := by
    intro hc
    subst hc
    simp [getAttachedMayaShaderObjects] at h
  have h1 : 1 ≤ sg.length := List.length_pos.mpr hsg
  rw [getAttached_len]
  split
  · exact Nat.le_refl 1
  · next h2 =>
      push_neg at h2
      split
      · omega
      · next h3 => omega

/-- C7: `GetLinearShaderColor` returns false when no shading group has a
connected shader; when it returns true and every retrieved per-shader RGB
value is within `1e-9` (per component) of the first entry, the RGB output
array is resized to one element and its interpolation token is set to
constant; otherwise, when the array length equals `numFaces`, the
interpolation token is set to uniform — and likewise for the alpha
outputs. -/
theorem GetLinearShaderColor_spec (conv : Rat × Rat × Rat → Rat × Rat × Rat)
    (sgObjs : List SgEntry) (numFaces : Nat) (wantRGB wantAlpha : Bool)
    (r0 a0 : TfTokenM) :
    ((∀ e ∈ sgObjs, e.shader = none) →
      (GetLinearShaderColor conv sgObjs numFaces wantRGB wantAlpha r0 a0).1 =
        false) ∧
    ((GetLinearShaderColor conv sgObjs numFaces wantRGB wantAlpha r0 a0).1 =
        true → wantRGB = true →
      rgbConstant conv (getAttachedMayaShaderObjects sgObjs numFaces).2 = true →
      (GetLinearShaderColor conv sgObjs numFaces wantRGB wantAlpha
          r0 a0).2.rgbData =
        some (((getAttachedMayaShaderObjects sgObjs numFaces).2.map
          (rgbEntry conv)).take 1) ∧
      (((getAttachedMayaShaderObjects sgObjs numFaces).2.map
        (rgbEntry conv)).take 1).length = 1 ∧
      (GetLinearShaderColor conv sgObjs numFaces wantRGB wantAlpha
          r0 a0).2.rgbInterp = TfTokenM.constant) ∧
    ((GetLinearShaderColor conv sgObjs numFaces wantRGB wantAlpha r0 a0).1 =
        true → wantRGB = true →
      rgbConstant conv (getAttachedMayaShaderObjects sgObjs numFaces).2 =
        false →
      ((getAttachedMayaShaderObjects sgObjs numFaces).2.map
        (rgbEntry conv)).length = numFaces →
      (GetLinearShaderColor conv sgObjs numFaces wantRGB wantAlpha
          r0 a0).2.rgbInterp = TfTokenM.uniform) ∧
    ((GetLinearShaderColor conv sgObjs numFaces wantRGB wantAlpha r0 a0).1 =
        true → wantAlpha = true →
      alphaConstant conv (getAttachedMayaShaderObjects sgObjs numFaces).2 =
        true →
      (GetLinearShaderColor conv sgObjs numFaces wantRGB wantAlpha
          r0 a0).2.alphaData =
        some (((getAttachedMayaShaderObjects sgObjs numFaces).2.map
          (alphaEntry conv)).take 1) ∧
      (((getAttachedMayaShaderObjects sgObjs numFaces).2.map
        (alphaEntry conv)).take 1).length = 1 ∧
      (GetLinearShaderColor conv sgObjs numFaces wantRGB wantAlpha
          r0 a0).2.alphaInterp = TfTokenM.constant) ∧
    ((GetLinearShaderColor conv sgObjs numFaces wantRGB wantAlpha r0 a0).1 =
        true → wantAlpha = true →
      alphaConstant conv (getAttachedMayaShaderObjects sgObjs numFaces).2 =
        false →
      ((getAttachedMayaShaderObjects sgObjs numFaces).2.map
        (alphaEntry conv)).length = numFaces →
      (GetLinearShaderColor conv sgObjs numFaces wantRGB wantAlpha
          r0 a0).2.alphaInterp = TfTokenM.uniform) := by
  refine ⟨?_, ?_, ?_, ?_, ?_⟩
  · intro h
    have hs : (getAttachedMayaShaderObjects sgObjs numFaces).1 = false := by
      unfold getAttachedMayaShaderObjects
      exact foldShader_fst _ sgObjs _ h
    simp [GetLinearShaderColor, hs]
  · intro h1 hw hc
    subst hw
    cases hr : (getAttachedMayaShaderObjects sgObjs numFaces).1 with
    | false => rw [GetLinearShaderColor] at h1; simp [hr] at h1
    | true =>
        have hlen := getAttached_len_pos sgObjs numFaces hr
        refine ⟨?_, ?_, ?_⟩ <;>
          simp [GetLinearShaderColor, hr, getMayaShadersColor, hc]
        omega
  · intro h1 hw hc hn
    subst hw
    cases hr : (getAttachedMayaShaderObjects sgObjs numFaces).1 with
    | false => rw [GetLinearShaderColor] at h1; simp [hr] at h1
    | true =>
        rw [List.length_map] at hn
        simp [GetLinearShaderColor, hr, getMayaShadersColor, hc, hn]
  · intro h1 hw hc
    subst hw
    cases hr : (getAttachedMayaShaderObjects sgObjs numFaces).1 with
    | false => rw [GetLinearShaderColor] at h1; simp [hr] at h1
    | true =>
        have hlen := getAttached_len_pos sgObjs numFaces hr
        refine ⟨?_, ?_, ?_⟩ <;>
          simp [GetLinearShaderColor, hr, getMayaShadersColor, hc]
        omega
  · intro h1 hw hc hn
    subst hw
    cases hr : (getAttachedMayaShaderObjects sgObjs numFaces).1 with
    | false => rw [GetLinearShaderColor] at h1; simp [hr] at h1
    | true =>
        rw [List.length_map] at hn
        simp [GetLinearShaderColor, hr, getMayaShadersColor, hc, hn]

/-- Witness for C7: a mesh whose only shading group has no connected
shader yields false; one connected (but unreadable) shader yields a
one-element constant RGB and alpha. -/
theorem GetLinearShaderColor_spec_witness :
    (GetLinearShaderColor (fun v => v) [SgEntry.mk none []] 4 true true
      (TfTokenM.custom "r") (TfTokenM.custom "a")).1 = false ∧
    (GetLinearShaderColor (fun v => v)
      [SgEntry.mk (some (ShaderObjM.mk none none none)) []] 0 true true
      (TfTokenM.custom "r") (TfTokenM.custom "a")).2.rgbData =
        some [(1, 1, 1)] ∧
    (GetLinearShaderColor (fun v => v)
      [SgEntry.mk (some (ShaderObjM.mk none none none)) []] 0 true true
      (TfTokenM.custom "r") (TfTokenM.custom "a")).2.rgbInterp =
        TfTokenM.constant := by
  refine ⟨?_, ?_, ?_⟩
  · exact (GetLinearShaderColor_spec (fun v => v) [SgEntry.mk none []] 4
      true true (TfTokenM.custom "r") (TfTokenM.custom "a")).1
        (by intro e he; simp at he; rw [he])
  · exact (((GetLinearShaderColor_spec (fun v => v)
      [SgEntry.mk (some (ShaderObjM.mk none none none)) []] 0 true true
      (TfTokenM.custom "r") (TfTokenM.custom "a")).2.1
        (by decide) rfl (by decide)).1).trans (by decide)
  · exact ((GetLinearShaderColor_spec (fun v => v)
      [SgEntry.mk (some (ShaderObjM.mk none none none)) []] 0 true true
      (TfTokenM.custom "r") (TfTokenM.custom "a")).2.1
        (by decide) rfl (by decide)).2.2

/-- The connection scan only classifies 0, 1 or 2. -/
theorem scanConns_range : ∀ l : List ConnKind,
    scanConns l = 0 ∨ scanConns l = 1 ∨ scanConns l = 2 := by
  intro l
  induction l with
  | nil => simp [scanConns]
  | cons c rest ih =>
      cases c with
      | animCurve inc => cases inc <;> simp [scanConns]
      | mute m => cases m <;> simp [scanConns]
      | other => simpa [scanConns] using ih

/-- A determined first-positive result is 0 or one of the entries. -/
theorem firstSampled_range : ∀ (l : List (Option Int)) (r : Int),
    firstSampled l = some r → r = 0 ∨ ∃ o ∈ l, o = some r := by
  intro l
  induction l with
  | nil =>
      intro r h
      injection h with h
      exact Or.inl h.symm
  | cons o0 rest ih =>
      intro r h
      cases o0 with
      | none => simp [firstSampled] at h
      | some x =>
          simp only [firstSampled] at h
          by_cases hx : 0 < x
          · rw [if_pos hx] at h
            injection h with h
            exact Or.inr ⟨some x, List.mem_cons_self _ _, by rw [h]⟩
          · rw [if_neg hx] at h
            rcases ih r h with h0 | ⟨o, ho, hoe⟩
            · exact Or.inl h0
            · exact Or.inr ⟨o, List.mem_cons_of_mem _ ho, hoe⟩

/-- A first-positive result of 0 forces every entry to be determined and
non-positive. -/
theorem firstSampled_zero : ∀ l : List (Option Int), firstSampled l = some 0 →
    ∀ o ∈ l, ∃ r, o = some r ∧ ¬ 0 < r := by
  intro l
  induction l with
  | nil =>
      intro h o ho
      simp at ho
  | cons o0 rest ih =>
      intro h o ho
      cases o0 with
      | none => simp [firstSampled] at h
      | some x =>
          simp only [firstSampled] at h
          by_cases hx : 0 < x
          · rw [if_pos hx] at h
            injection h with h
            exact absurd hx (by omega)
          · rw [if_neg hx] at h
            rcases List.mem_cons.mp ho with rfl | hmem
            · exact ⟨x, rfl, hx⟩
            · exact ih h o hmem

/-- `getSampledType` only classifies 0, 1 or 2 when determined. -/
theorem getSampledType_range : ∀ (f : Nat) (p : Plug) (inc : Bool) (r : Int),
    getSampledType f p inc = some r → r = 0 ∨ r = 1 ∨ r = 2 := by
  intro f
  induction f with
  | zero =>
      intro p inc r h
      simp [getSampledType] at h
  | succ f ih =>
      intro p inc r h
      obtain ⟨conns, isArr, elems, isComp, children, ncc⟩ := p
      simp only [getSampledType] at h
      split at h
      · split at h
        · rcases firstSampled_range _ _ h with h0 | ⟨o, ho, hoe⟩
          · exact Or.inl h0
          · obtain ⟨e, he, rfl⟩ := List.mem_map.mp ho
            exact ih e true r hoe
        · split at h
          · rcases firstSampled_range _ _ h with h0 | ⟨o, ho, hoe⟩
            · exact Or.inl h0
            · obtain ⟨c, hc, rfl⟩ := List.mem_map.mp ho
              exact ih c true r hoe
          · injection h with h
            exact Or.inl h.symm
      · injection h with h
        exact h ▸ scanConns_range conns

/-- A determined classification of a plug with direct connections is the
connection scan. -/
theorem getSampledType_of_conns_ne (f : Nat) (p : Plug) (inc : Bool) (r : Int)
    (h : getSampledType f p inc = some r) (hc : p.conns ≠ []) :
    r = scanConns p.conns := by
  cases f with
  | zero => simp [getSampledType] at h
  | succ f =>
      obtain ⟨conns, isArr, elems, isComp, children, ncc⟩ := p
      simp only [Plug.conns] at hc ⊢
      simp only [getSampledType] at h
      rw [if_neg (fun hlen => hc (List.length_eq_zero.mp hlen))] at h
      injection h with h
      exact h.symm

/-- A lone scanned connection classifying static is a muted mute node. -/
theorem scanConns_singleton_zero (c : ConnKind) (h : scanConns [c] = 0) :
    c = ConnKind.mute true := by
  cases c with
  | animCurve inc => cases inc <;> simp [scanConns] at h
  | mute m =>
      cases m with
      | true => rfl
      | false => simp [scanConns] at h
  | other => simp [scanConns] at h

/-- Plugs whose incoming connections are empty or a lone muted mute node
contribute no animating connection. -/
theorem conns_any_animating_eq_false (l : List Plug)
    (h : ∀ e ∈ l, e.conns = [] ∨ e.conns = [ConnKind.mute true]) :
    l.any (fun e => e.conns.any isAnimatingConn) = false := by
  rw [List.any_eq_false]
  intro e he
  rcases h e he with hc | hc <;> simp [hc, isAnimatingConn]

/-- A determined element classification of 0 leaves the element's
connections non-animating (given the one-connection invariant). -/
theorem elem_zero_conns (f : Nat) (l : List Plug)
    (hlen : ∀ e ∈ l, e.conns.length ≤ 1)
    (hall : ∀ o ∈ l.map (fun e => getSampledType f e true),
      ∃ r, o = some r ∧ ¬ 0 < r) :
    ∀ e ∈ l, e.conns = [] ∨ e.conns = [ConnKind.mute true] := by
  intro e he
  obtain ⟨re, hre, hrpos⟩ :=
    hall (getSampledType f e true) (List.mem_map_of_mem _ he)
  have hrange := getSampledType_range f e true re hre
  have hre0 : re = 0 := by omega
  subst hre0
  by_cases hec : e.conns = []
  · exact Or.inl hec
  · right
    have hscan := getSampledType_of_conns_ne f e true 0 hre hec
    have hl1 := hlen e he
    cases hcs : e.conns with
    | nil => exact absurd hcs hec
    | cons c rest =>
        have hrest : rest = [] := by
          rw [hcs] at hl1
          simp only [List.length_cons] at hl1
          exact List.length_eq_zero.mp (by omega)
        subst hrest
        rw [hcs] at hscan
        rw [scanConns_singleton_zero c hscan.symm]

/-- Unfolding of the claim's search predicate on a plug literal. -/
theorem hasAnimatingConnection_mk (conns : List ConnKind) (isArr : Bool)
    (elems : List Plug) (isComp : Bool) (children : List Plug) (ncc : Nat)
    (inc : Bool) :
    hasAnimatingConnection (Plug.mk conns isArr elems isComp children ncc)
        inc =
      (conns.any isAnimatingConn ||
        (isArr && elems.any (fun e => e.conns.any isAnimatingConn)) ||
        (inc && isComp &&
          children.any (fun c => c.conns.any isAnimatingConn))) := rfl

/-- C1: over well-formed host plugs, a determined `getSampledType` result
is exactly one of 0 (static), 1 (sampled) or 2 (curve), and it is 0 only
when no animating connection is found on the plug, on any of its
connected array elements, or (when `includeConnectedChildren` is true) on
any of its compound children. -/
theorem getSampledType_classification (f : Nat) (p : Plug) (inc : Bool)
    (r : Int) (hwf : plugWF p = true) (h : getSampledType f p inc = some r) :
    (r = 0 ∨ r = 1 ∨ r = 2) ∧
    (r = 0 → hasAnimatingConnection p inc = false) := by
  refine ⟨getSampledType_range f p inc r h, fun hr0 => ?_⟩
  subst hr0
  obtain ⟨conns, isArr, elems, isComp, children, ncc⟩ := p
  simp only [plugWF, Plug.conns, Plug.elems, Plug.children, Plug.ncc,
    Plug.isArrayPlug, Bool.and_eq_true, Bool.or_eq_true, List.all_eq_true,
    decide_eq_true_eq, List.isEmpty_iff, Bool.not_eq_true'] at hwf
  obtain ⟨⟨⟨⟨⟨hA, hB⟩, hC⟩, hD⟩, hE⟩, hG⟩ := hwf
  rw [hasAnimatingConnection_mk]
  cases f with
  | zero => simp [getSampledType] at h
  | succ f =>
      simp only [getSampledType] at h
      by_cases hcl : conns.length = 0
      · have hce : conns = [] := List.length_eq_zero.mp hcl
        subst hce
        rw [if_pos (show ([] : List ConnKind).length = 0 from rfl)] at h
        by_cases hArr : isArr = true
        · subst hArr
          rw [if_pos (show (true : Bool) = true from rfl)] at h
          have h2 := conns_any_animating_eq_false elems
            (elem_zero_conns f elems hB (firstSampled_zero _ h))
          have h3 : children.any
              (fun c => c.conns.any isAnimatingConn) = false := by
            rcases hG with hG | hG
            · exact absurd hG (by simp)
            · rw [hG]
              rfl
          rw [h2, h3]
          simp
        · have hArrF : isArr = false := by
            cases isArr with
            | true => exact absurd rfl hArr
            | false => rfl
          subst hArrF
          rw [if_neg (by simp)] at h
          by_cases hcc : isComp = true ∧ ncc ≠ 0 ∧ inc = true
          · rw [if_pos hcc] at h
            have h3 := conns_any_animating_eq_false children
              (elem_zero_conns f children hC (firstSampled_zero _ h))
            rw [h3]
            simp
          · by_cases hni : ncc = 0
            · have hfree : ∀ c ∈ children, c.conns = [] := by
                rcases hE with hE | hE
                · exact absurd hni hE
                · exact hE
              have h3 := conns_any_animating_eq_false children
                (fun c hc => Or.inl (hfree c hc))
              rw [h3]
              simp
            · have hgate : isComp = false ∨ inc = false := by
                by_cases hcm : isComp = true
                · by_cases hin : inc = true
                  · exact absurd ⟨hcm, hni, hin⟩ hcc
                  · exact Or.inr (by
                      cases inc with
                      | true => exact absurd rfl hin
                      | false => rfl)
                · exact Or.inl (by
                    cases isComp with
                    | true => exact absurd rfl hcm
                    | false => rfl)
              rcases hgate with hgate | hgate <;> simp [hgate]
      · rw [if_neg hcl] at h
        injection h with h
        have hc1 : ∃ c, conns = [c] := by
          cases hcs : conns with
          | nil => exact absurd (show conns.length = 0 by simp [hcs]) hcl
          | cons c rest =>
              rw [hcs] at hA
              simp only [List.length_cons] at hA
              have hrest : rest = [] := List.length_eq_zero.mp (by omega)
              exact ⟨c, by rw [hrest]⟩
        obtain ⟨c, rfl⟩ := hc1
        have hcmute := scanConns_singleton_zero c h
        subst hcmute
        have hconn1 : [ConnKind.mute true].any isAnimatingConn = false := by
          simp [isAnimatingConn]
        rcases hD with hD | ⟨hDe, hDc⟩
        · simp at hD
        · have h2 := conns_any_animating_eq_false elems
            (fun e he => Or.inl (hDe e he))
          have h3 := conns_any_animating_eq_false children
            (fun c hc => Or.inl (hDc c hc))
          rw [hconn1, h2, h3]
          simp

/-- Witness for C1 at a plug with a lone muted animation connection. -/
theorem getSampledType_classification_witness :
    plugWF (Plug.mk [ConnKind.mute true] false [] false [] 0) = true ∧
    getSampledType 1 (Plug.mk [ConnKind.mute true] false [] false [] 0)
      false = some 0 ∧
    hasAnimatingConnection (Plug.mk [ConnKind.mute true] false [] false [] 0)
      false = false := by
  refine ⟨by decide, by decide, ?_⟩
  exact (getSampledType_classification 1
    (Plug.mk [ConnKind.mute true] false [] false [] 0) false 0
    (by decide) (by decide)).2 rfl

/-- A first-positive scan over determined entries is determined. -/
theorem firstSampled_isSome : ∀ l : List (Option Int),
    (∀ o ∈ l, o.isSome = true) → (firstSampled l).isSome = true := by
  intro l
  induction l with
  | nil => intro _; rfl
  | cons o0 rest ih =>
      intro h
      cases o0 with
      | none => exact absurd (h none (by simp)) (by simp)
      | some x =>
          simp only [firstSampled]
          by_cases hx : 0 < x
          · rw [if_pos hx]; rfl
          · rw [if_neg hx]
            exact ih (fun o ho => h o (by simp [ho]))

/-- `sizeOf` of a plug bounds the classification's recursion depth. -/
theorem getSampledType_total : ∀ (f : Nat) (p : Plug) (inc : Bool),
    sizeOf p ≤ f → (getSampledType f p inc).isSome = true := by
  intro f
  induction f with
  | zero =>
      intro p inc hs
      obtain ⟨conns, isArr, elems, isComp, children, ncc⟩ := p
      simp only [Plug.mk.sizeOf_spec] at hs
      omega
  | succ f ih =>
      intro p inc hs
      obtain ⟨conns, isArr, elems, isComp, children, ncc⟩ := p
      simp only [Plug.mk.sizeOf_spec] at hs
      simp only [getSampledType]
      split
      · split
        · apply firstSampled_isSome
          intro o ho
          obtain ⟨e, he, rfl⟩ := List.mem_map.mp ho
          have h1 := List.sizeOf_lt_of_mem he
          exact ih e true (by omega)
        · split
          · apply firstSampled_isSome
            intro o ho
            obtain ⟨c, hc, rfl⟩ := List.mem_map.mp ho
            have h1 := List.sizeOf_lt_of_mem hc
            exact ih c true (by omega)
          · rfl
      · rfl

/-- Filtering with a weaker predicate only grows a sum of values. -/
theorem sum_filter_mono (g : Nat → Nat) (p q : Nat → Bool)
    (himp : ∀ m, q m = true → p m = true) :
    ∀ l : List Nat, ((l.filter q).map g).sum ≤ ((l.filter p).map g).sum := by
  intro l
  induction l with
  | nil => simp
  | cons u rest ih =>
      by_cases hq : q u = true
      · have hp := himp u hq
        simp only [List.filter_cons, hq, hp, if_true, List.map_cons,
          List.sum_cons]
        exact Nat.add_le_add_left ih (g u)
      · by_cases hp : p u = true
        · simp only [List.filter_cons, hq, hp, if_true, if_false,
            List.map_cons, List.sum_cons]
          exact Nat.le_trans ih (Nat.le_add_left _ _)
        · simp only [List.filter_cons, hq, hp, if_false]
          exact ih

/-- Marking an unvisited graph node visited frees at least its own
summand from the unvisited pool. -/
theorem filter_visit_step (g : Nat → Nat) (n : Nat) (visited : List Nat) :
    ∀ univ : List Nat, n ∈ univ → n ∉ visited →
      ((univ.filter (fun m => decide (m ∉ n :: visited))).map g).sum + g n ≤
        ((univ.filter (fun m => decide (m ∉ visited))).map g).sum := by
  have himp : ∀ m, decide (m ∉ n :: visited) = true →
      decide (m ∉ visited) = true := by
    intro m hm
    simp only [decide_eq_true_eq, List.mem_cons, not_or] at hm ⊢
    exact hm.2
  intro univ
  induction univ with
  | nil => intro hn; exact absurd hn (List.not_mem_nil n)
  | cons u rest ih =>
      intro hn hnv
      by_cases hu : u = n
      · subst hu
        have hd2 : decide (u ∉ u :: visited) = false := by simp
        have hd1 : decide (u ∉ visited) = true := by simpa using hnv
        rw [List.filter_cons, List.filter_cons, if_pos hd1,
          if_neg (by rw [hd2]; exact Bool.false_ne_true)]
        simp only [List.map_cons, List.sum_cons]
        have hmono := sum_filter_mono g (fun m => decide (m ∉ visited))
          (fun m => decide (m ∉ u :: visited)) himp rest
        omega
      · have hn2 : n ∈ rest := by
          rcases List.mem_cons.mp hn with h | h
          · exact absurd h.symm hu
          · exact h
        by_cases huv : u ∈ visited
        · have hd1 : decide (u ∉ visited) = false := by simp [huv]
          have hd2 : decide (u ∉ n :: visited) = false := by
            simp [List.mem_cons, huv]
          rw [List.filter_cons, List.filter_cons,
            if_neg (by rw [hd2]; exact Bool.false_ne_true),
            if_neg (by rw [hd1]; exact Bool.false_ne_true)]
          exact ih hn2 hnv
        · have hd1 : decide (u ∉ visited) = true := by simp [huv]
          have hd2 : decide (u ∉ n :: visited) = true := by
            simp [List.mem_cons, huv, hu]
          rw [List.filter_cons, List.filter_cons, if_pos hd2, if_pos hd1]
          simp only [List.map_cons, List.sum_cons]
          have := ih hn2 hnv
          omega

/-- The host's depth-first upstream walk terminates: any fuel exceeding
the stack size plus the unvisited pool's weight determines it, and it
visits at most one node per unvisited graph node. -/
theorem dgWalk_total (univ : List Nat) (adj : Nat → List Nat)
    (hclosed : ∀ n, ∀ m ∈ adj n, m ∈ univ) :
    ∀ (fuel : Nat) (stack visited : List Nat),
      (∀ n ∈ stack, n ∈ univ) → visited.Nodup →
      stack.length +
        ((univ.filter (fun m => decide (m ∉ visited))).map
          (fun n => 1 + (adj n).length)).sum < fuel →
      ∃ order, dgWalk adj fuel stack visited = some order ∧
        order.length ≤ visited.length +
          (univ.filter (fun m => decide (m ∉ visited))).length := by
  intro fuel
  induction fuel with
  | zero =>
      intro stack visited _ _ hp
      exact absurd hp (Nat.not_lt_zero _)
  | succ fuel ih =>
      intro stack visited hstack hnd hp
      cases stack with
      | nil =>
          refine ⟨visited.reverse, rfl, ?_⟩
          simp only [List.length_reverse]
          exact Nat.le_add_right _ _
      | cons n rest =>
          have hlen1 : ∀ l : List Nat,
              (l.map (fun _ => (1 : Nat))).sum = l.length := by
            intro l
            induction l with
            | nil => rfl
            | cons x xs ihx =>
                simp only [List.map_cons, List.sum_cons, ihx,
                  List.length_cons]
                omega
          by_cases hv : n ∈ visited
          · simp only [dgWalk]
            rw [if_pos hv]
            apply ih rest visited (fun x hx => hstack x (by simp [hx])) hnd
            simp only [List.length_cons] at hp
            omega
          · simp only [dgWalk]
            rw [if_neg hv]
            have hnu : n ∈ univ := hstack n (by simp)
            have hstep := filter_visit_step (fun k => 1 + (adj k).length)
              n visited univ hnu hv
            have hbeta : (fun k => 1 + (adj k).length) n =
                1 + (adj n).length := rfl
            rw [hbeta] at hstep
            have hstepL := filter_visit_step (fun _ => (1 : Nat))
              n visited univ hnu hv
            have hbetaL : (fun _ : Nat => (1 : Nat)) n = 1 := rfl
            rw [hlen1, hlen1, hbetaL] at hstepL
            have hΦ2 : (adj n ++ rest).length +
                ((univ.filter (fun m => decide (m ∉ n :: visited))).map
                  (fun k => 1 + (adj k).length)).sum < fuel := by
              simp only [List.length_append] at hstep ⊢
              simp only [List.length_cons] at hp
              omega
            obtain ⟨order, ho, hol⟩ := ih (adj n ++ rest) (n :: visited)
              (fun x hx => by
                rcases List.mem_append.mp hx with h | h
                · exact hclosed n x h
                · exact hstack x (by simp [h]))
              (List.nodup_cons.mpr ⟨hv, hnd⟩) hΦ2
            refine ⟨order, ho, ?_⟩
            simp only [List.length_cons] at hol
            omega

/-- The second classification loop is determined within one fuel per
collected node. -/
theorem animCurveLoop_total (data : Nat → DGNodeM) (cp : Bool) :
    ∀ (l : List Nat) (fuel : Nat), l.length < fuel →
      (animCurveLoop data cp fuel l).isSome = true := by
  intro l
  induction l with
  | nil =>
      intro fuel _
      cases fuel <;> rfl
  | cons i rest ih =>
      intro fuel hf
      cases fuel with
      | zero => exact absurd hf (Nat.not_lt_zero _)
      | succ fuel =>
          simp only [animCurveLoop]
          split
          · rfl
          · apply ih
            simp only [List.length_cons] at hf
            omega

/-- The two loops of `isAnimated` are determined within two fuel units
per iterated node. -/
theorem dgScanLoop_total (data : Nat → DGNodeM) (cp : Bool) :
    ∀ (iter acc : List Nat) (fuel : Nat),
      2 * iter.length + acc.length < fuel →
      (dgScanLoop data cp fuel iter acc).isSome = true := by
  intro iter
  induction iter with
  | nil =>
      intro acc fuel hf
      have hrw : dgScanLoop data cp fuel [] acc =
          animCurveLoop data cp fuel acc := by
        cases fuel <;> rfl
      rw [hrw]
      exact animCurveLoop_total data cp acc fuel (by simpa using hf)
  | cons i rest ih =>
      intro acc fuel hf
      cases fuel with
      | zero => exact absurd hf (Nat.not_lt_zero _)
      | succ fuel =>
          simp only [dgScanLoop]
          split
          · rfl
          · split
            · rfl
            · apply ih
              simp only [List.length_cons, List.length_append,
                List.length_nil] at hf ⊢
              omega

/-- C4: the recursive traversal of `getSampledType` terminates for every
plug (fuel `sizeOf p` determines it), and the upstream depth-first walk
of `isAnimated` terminates after visiting at most one node per graph
node, after which its two classification loops are determined as well
(fuel `dgFuel univ adj` suffices for the whole call). -/
theorem termination_spec :
    (∀ (p : Plug) (inc : Bool),
      (getSampledType (sizeOf p) p inc).isSome = true) ∧
    (∀ (univ : List Nat) (adj : Nat → List Nat) (data : Nat → DGNodeM)
        (object : Nat) (checkParent : Bool),
      (∀ n, ∀ m ∈ adj n, m ∈ univ) → object ∈ univ →
      ∃ order b,
        dgWalk adj (dgFuel univ adj) [object] [] = some order ∧
        order.length ≤ univ.length ∧
        isAnimated data adj object checkParent (dgFuel univ adj) = some b) := by
  constructor
  · intro p inc
    exact getSampledType_total (sizeOf p) p inc (Nat.le_refl _)
  · intro univ adj data object cp hclosed hobj
    have hfilter : univ.filter (fun m => decide (m ∉ ([] : List Nat))) =
        univ :=
      List.filter_eq_self.mpr (fun a _ => by simp)
    have hΦ0 : ([object] : List Nat).length +
        ((univ.filter (fun m => decide (m ∉ ([] : List Nat)))).map
          (fun n => 1 + (adj n).length)).sum < dgFuel univ adj := by
      rw [hfilter]
      simp only [dgFuel, List.length_cons, List.length_nil]
      omega
    obtain ⟨order, ho, hol⟩ := dgWalk_total univ adj hclosed
      (dgFuel univ adj) [object] []
      (fun x hx => by
        simp only [List.mem_singleton] at hx
        exact hx ▸ hobj)
      List.nodup_nil hΦ0
    rw [hfilter] at hol
    simp only [List.length_nil, Nat.zero_add] at hol
    have hscan := dgScanLoop_total data cp order [] (dgFuel univ adj)
      (by simp only [dgFuel, List.length_nil]; omega)
    obtain ⟨b, hb⟩ := Option.isSome_iff_exists.mp hscan
    refine ⟨order, b, ho, hol, ?_⟩
    simp only [isAnimated, ho]
    exact hb

/-- Witness for C4 on a one-node dependency graph with no edges. -/
theorem termination_spec_witness :
    ∃ order b,
      dgWalk (fun _ => []) (dgFuel [5] (fun _ => [])) [5] [] = some order ∧
      order.length ≤ 1 ∧
      isAnimated (fun _ => DGNodeM.mk [] false false (fun _ => false))
        (fun _ => []) 5 false (dgFuel [5] (fun _ => [])) = some b := by
  have h := termination_spec.2 [5] (fun _ => [])
    (fun _ => DGNodeM.mk [] false false (fun _ => false)) 5 false
    (fun n m hm => absurd hm (List.not_mem_nil m)) (by simp)
  simpa using h

end UsdMayaUtil
